import Mathlib

/-
Verification of the gogitver version-resolution engine.

The definitions below are a shallow embedding of the program:
  - src/pkg/git/git.go        (version assembly, default-branch lookup,
                               current-branch lookup, branch-name cleansing,
                               tag-map construction)
  - src/cmd/gogitver/cmd/root.go (the prerelease-label command)
together with the behaviour of the two pinned dependencies the engine
relies on for its semantics:
  - github.com/coreos/go-semver/semver  (Version, BumpMajor/Minor/Patch,
                                         LessThan / Compare)
  - gopkg.in/src-d/go-git.v4            (RefSpec Reverse/Match/Dst,
                                         ReferenceName.IsBranch/Short)
Machine integers are modelled as Nat/Int (the Go values involved are
small, non-negative counters and version components), strings as Lean
String (all inputs of interest are ASCII, so Go byte indexing and Lean
character indexing agree), and Go errors as explicit error values.
-/

namespace Gogitver

/-! ## The semver model (github.com/coreos/go-semver, pinned dependency) -/

/-- Model of semver.Version: three numeric components plus the
prerelease and metadata strings. -/
structure SemVer where
  major : Nat
  minor : Nat
  patch : Nat
  preRelease : String
  metadata : String
deriving DecidableEq

/-- Model of Version.BumpMajor: increment major, zero the lower
components, clear prerelease and metadata. -/
def bumpMajor (v : SemVer) : SemVer :=
  { major := v.major + 1, minor := 0, patch := 0, preRelease := "", metadata := "" }

/-- Model of Version.BumpMinor. -/
def bumpMinor (v : SemVer) : SemVer :=
  { v with minor := v.minor + 1, patch := 0, preRelease := "", metadata := "" }

/-- Model of Version.BumpPatch. -/
def bumpPatch (v : SemVer) : SemVer :=
  { v with patch := v.patch + 1, preRelease := "", metadata := "" }

/-- Model of strconv.Atoi restricted to the values that occur in
prerelease identifiers: an optional sign followed by decimal digits. -/
def atoi (s : String) : Option Int :=
  let signed : Int × List Char :=
    match s.toList with
    | '+' :: rest => (1, rest)
    | '-' :: rest => (-1, rest)
    | l => (1, l)
  if signed.2 = [] then none
  else if signed.2.all Char.isDigit then
    some (signed.1 * (signed.2.foldl (fun acc c => acc * 10 + (c.toNat - 48)) 0 : Nat))
  else none

/-- Byte-wise string comparison used by Go for non-numeric prerelease
identifiers (on ASCII data byte order and character order coincide). -/
def strLtChars : List Char → List Char → Bool
  | [], [] => false
  | [], _ :: _ => true
  | _ :: _, [] => false
  | a :: as, b :: bs =>
    if a.toNat < b.toNat then true
    else if b.toNat < a.toNat then false
    else strLtChars as bs

/-- Go string operator < on two strings. -/
def goStrLt (a b : String) : Bool := strLtChars a.toList b.toList

/-- Model of go-semver recursivePreReleaseCompare over the dot-separated
identifier slices of two prerelease strings. -/
def recursivePreReleaseCompare : List String → List String → Int
  | [], [] => 0
  | [], _ :: _ => -1
  | _ :: _, [] => 1
  | a :: as, b :: bs =>
    match atoi a, atoi b with
    | some ai, some bi =>
      if ai > bi then 1 else if ai < bi then -1
      else recursivePreReleaseCompare as bs
    | some _, none => -1
    | none, some _ => 1
    | none, none =>
      if goStrLt b a then 1 else if goStrLt a b then -1
      else recursivePreReleaseCompare as bs

/-- Model of go-semver recursiveCompare over Version.Slice(): the
lexicographic comparison of the (major, minor, patch) tuples. -/
def numericCompare (v w : SemVer) : Int :=
  if v.major > w.major then 1 else if v.major < w.major then -1
  else if v.minor > w.minor then 1 else if v.minor < w.minor then -1
  else if v.patch > w.patch then 1 else if v.patch < w.patch then -1
  else 0

/-- Model of go-semver preReleaseCompare: an empty prerelease sorts above
a non-empty one; two non-empty prereleases compare identifier-wise. -/
def preReleaseCompare (v w : SemVer) : Int :=
  if v.preRelease = "" ∧ w.preRelease ≠ "" then 1
  else if v.preRelease ≠ "" ∧ w.preRelease = "" then -1
  else if v.preRelease ≠ "" ∧ w.preRelease ≠ "" then
    recursivePreReleaseCompare (v.preRelease.splitOn ".") (w.preRelease.splitOn ".")
  else 0

/-- Model of Version.Compare: numeric tuple first, prerelease as the
tie-break. -/
def compareVer (v w : SemVer) : Int :=
  if numericCompare v w ≠ 0 then numericCompare v w else preReleaseCompare v w

/-- Model of Version.LessThan. -/
def lessThan (v w : SemVer) : Bool := compareVer v w < 0

/-! ## The assembler data (src/pkg/git/git.go) -/

/-- Model of the gitVersion record produced per visited commit
(git.go lines 25-33).  Name models the pointer field; it is read by
getVersion only when IsSolid is true. -/
structure GitVersion where
  IsSolid : Bool
  Name : SemVer
  MajorBump : Bool
  MinorBump : Bool
  PatchBump : Bool
  Commit : String
deriving DecidableEq

/-- The errors getVersion can produce itself (git.go lines 206 and 237);
the second carries the two versions interpolated into the message. -/
inductive VersionError where
  | cannotDetermineVersionInBranch
  | branchBehindMaster (calculated master : SemVer)
deriving DecidableEq

/-- One step of the bump-aggregation loop (git.go lines 220-230): the
switch applies at most one bump, MajorBump winning over MinorBump
winning over PatchBump; a record with no bump flag set is a no-op. -/
def applyBump (g : GitVersion) (base : SemVer) : SemVer :=
  if g.MajorBump then bumpMajor base
  else if g.MinorBump then bumpMinor base
  else if g.PatchBump then bumpPatch base
  else base

/-- Model of getVersion from the point where the traversal sequence and
the default-branch version are in hand (git.go lines 203-240).  The
inputs are the values the surrounding code supplies: the
ForbidBehindDefaultBranch flag, the default-branch version, the
newest-first traversal sequence, the cleansed current-branch name and
the head commit hash.

In the Go code baseVersion is a pointer: when the oldest record is not
solid it is assigned masterVersion itself, so every bump and the
prerelease assignment mutate the shared object and the final LessThan
check reads the mutated value.  The let-bound masterAtCheck reproduces
that aliasing. -/
def getVersion (forbid : Bool) (masterVersion : SemVer) (versionMap : List GitVersion)
    (currentBranch : String) (headHash : String) : Except VersionError SemVer :=
  match versionMap.getLast? with
  | none => Except.error VersionError.cannotDetermineVersionInBranch
  | some oldest =>
    let baseVersion := if oldest.IsSolid then oldest.Name else masterVersion
    let records := if oldest.IsSolid then versionMap.dropLast else versionMap
    match records with
    | [] => Except.ok baseVersion
    | r :: rs =>
      let bumped := (r :: rs).foldr applyBump baseVersion
      let prerelease :=
        currentBranch ++ "-" ++ toString (versionMap.length - 1) ++ "-" ++ headHash.take 4
      let labeled := { bumped with preRelease := prerelease }
      let masterAtCheck := if oldest.IsSolid then masterVersion else labeled
      if forbid && lessThan labeled masterAtCheck then
        Except.error (VersionError.branchBehindMaster labeled masterAtCheck)
      else Except.ok labeled

/-- The version getVersion calculated, whether it was returned or only
interpolated into the behind-master error. -/
def calculatedVersion : Except VersionError SemVer → Option SemVer
  | Except.ok v => some v
  | Except.error (VersionError.branchBehindMaster a _) => some a
  | Except.error VersionError.cannotDetermineVersionInBranch => none

/-! ## Default-branch resolution (git.go getDefaultBranch, go-git RefSpec) -/

/-- A resolved git reference: its full name and target hash. -/
structure GitReference where
  name : String
  hash : String
deriving DecidableEq

/-- The two halves of a refspec string, split at its first colon
(go-git validates that every refspec contains one). -/
def rawHalves (s : String) : List Char × List Char :=
  match s.toList.findIdx? (fun c => c == ':') with
  | some i => (s.toList.take i, s.toList.drop (i + 1))
  | none => (s.toList, [])

/-- Model of RefSpec.Reverse: swap the two textual halves around the
colon (a leading force marker on the source half travels with it). -/
def refspecReverse (s : String) : String :=
  ⟨(rawHalves s).2 ++ ':' :: (rawHalves s).1⟩

/-- Model of RefSpec.IsForceUpdate: the spec starts with a plus sign. -/
def refspecIsForce (s : String) : Bool :=
  match s.toList with
  | '+' :: _ => true
  | _ => false

/-- Model of RefSpec.Src: the first half, without the force marker. -/
def refspecSrc (s : String) : List Char :=
  if refspecIsForce s then (rawHalves s).1.drop 1 else (rawHalves s).1

/-- Model of RefSpec.IsWildcard: the spec contains an asterisk. -/
def refspecIsWildcard (s : String) : Bool := s.toList.contains '*'

/-- Model of RefSpec.matchGlob: the name must carry the source pattern
text before and after the asterisk. -/
def matchGlob (src nl : List Char) : Bool :=
  match src.findIdx? (fun c => c == '*') with
  | some w =>
    decide ((src.take w).length + (src.drop (w + 1)).length ≤ nl.length) &&
      (src.take w).isPrefixOf nl && (src.drop (w + 1)).isSuffixOf nl
  | none => false

/-- Model of RefSpec.Match. -/
def refspecMatch (s n : String) : Bool :=
  if refspecIsWildcard s then matchGlob (refspecSrc s) n.toList
  else refspecSrc s == n.toList

/-- Model of RefSpec.Dst: substitute the text the asterisk captured in
the source pattern into the destination pattern. -/
def refspecDst (s n : String) : String :=
  let dst := (rawHalves s).2
  if refspecIsWildcard s then
    let src := refspecSrc s
    match src.findIdx? (fun c => c == '*'), dst.findIdx? (fun c => c == '*') with
    | some ws, some es =>
      let nl := n.toList
      let captured := (nl.drop ws).take (nl.length - (src.length - (ws + 1)) - ws)
      ⟨dst.take es ++ captured ++ dst.drop (es + 1)⟩
    | _, _ => ⟨dst⟩
  else ⟨dst⟩

/-- The force-marker strip applied in git.go lines 148-150 to the
mapped local reference name. -/
def stripPlus (s : String) : String :=
  match s.toList with
  | '+' :: rest => ⟨rest⟩
  | _ => s

/-- The read-only repository facts getDefaultBranch consults:
reference resolution (go-git Reference with resolved = true) and the
fetch refspecs of the remote named origin, when that remote exists. -/
structure RepoEnv where
  reference : String → Option GitReference
  originFetch : Option (List String)

/-- Outcome of the fetch-refspec loop (git.go lines 144-156).  The Go
code reuses one ref variable for the attempted local resolution, so a
matched refspec whose local name fails to resolve leaves ref nil
(git.go line 151, tryResolve returns nil with the error); when another
refspec remains, the next iteration evaluates ref.Name() on that nil
reference (git.go line 146) and the process crashes with a nil
dereference.  The loop only falls through cleanly when no spec matched
or the failed match sat on the last spec. -/
inductive FetchScanResult where
  | found (ref : GitReference)
  | exhausted
  | crashed
deriving DecidableEq

/-- The loop over origin's fetch refspecs (git.go lines 144-156): the
first spec whose reversal matches the resolved remote-HEAD name and
whose mapped, force-stripped local name resolves wins; a spec that does
not match is skipped; a matched spec whose local name does not resolve
nils the shared ref variable, so the loop crashes at the next
iteration's ref.Name() when any further spec remains, and only exits
cleanly when that spec was the last one. -/
def tryFetchSpecs (r : RepoEnv) (refName : String) : List String → FetchScanResult
  | [] => FetchScanResult.exhausted
  | spec :: rest =>
    let rs := refspecReverse spec
    if refspecMatch rs refName then
      match r.reference (stripPlus (refspecDst rs refName)) with
      | some ref => FetchScanResult.found ref
      | none =>
        match rest with
        | [] => FetchScanResult.exhausted
        | _ :: _ => FetchScanResult.crashed
    else tryFetchSpecs r refName rest

/-- How getDefaultBranch can end without a reference: its own error
value (git.go line 160), or the runtime nil-dereference crash the
refspec loop can run into. -/
inductive DefaultBranchFailure where
  | failedToGetDefaultBranch
  | nilReferenceCrash
deriving DecidableEq

/-- Model of getDefaultBranch (git.go lines 110-161).  plumbing.Master
is the literal "refs/heads/master". -/
def getDefaultBranch (r : RepoEnv) (defaultBranch : String) :
    Except DefaultBranchFailure GitReference :=
  match r.reference defaultBranch with
  | some ref => Except.ok ref
  | none =>
    match (if defaultBranch ≠ "refs/heads/master"
           then r.reference "refs/heads/master" else none) with
    | some ref => Except.ok ref
    | none =>
      match r.originFetch with
      | some fetch =>
        match r.reference "refs/remotes/origin/HEAD" with
        | some headRef =>
          match tryFetchSpecs r headRef.name fetch with
          | FetchScanResult.found ref => Except.ok ref
          | FetchScanResult.exhausted =>
              Except.error DefaultBranchFailure.failedToGetDefaultBranch
          | FetchScanResult.crashed =>
              Except.error DefaultBranchFailure.nilReferenceCrash
        | none => Except.error DefaultBranchFailure.failedToGetDefaultBranch
      | none => Except.error DefaultBranchFailure.failedToGetDefaultBranch

/-! ## Branch identity (git.go getCurrentBranch, cleanseBranchName) -/

/-- The character class of the regex [^a-zA-Z0-9], negated. -/
def isAlnum (c : Char) : Bool :=
  (decide ('a' ≤ c) && decide (c ≤ 'z')) ||
  (decide ('A' ≤ c) && decide (c ≤ 'Z')) ||
  (decide ('0' ≤ c) && decide (c ≤ '9'))

/-- regexp.ReplaceAllString with pattern [^a-zA-Z0-9]+ and replacement
"-": every maximal run of characters outside the class becomes one
dash.  The Bool says whether the scan stands inside such a run (whose
dash is already emitted). -/
def squashAux : Bool → List Char → List Char
  | _, [] => []
  | inRun, c :: rest =>
    if isAlnum c then c :: squashAux false rest
    else if inRun then squashAux true rest
    else '-' :: squashAux true rest

/-- The regex replacement of a whole string starts outside any run. -/
def squashRuns (l : List Char) : List Char := squashAux false l

/-- The anchored regex ^(feature|hotfix)- replaces at most one leading
token. -/
def trimBranchTokens (l : List Char) : List Char :=
  match l with
  | 'f' :: 'e' :: 'a' :: 't' :: 'u' :: 'r' :: 'e' :: '-' :: rest => rest
  | 'h' :: 'o' :: 't' :: 'f' :: 'i' :: 'x' :: '-' :: rest => rest
  | _ => l

/-- Model of cleanseBranchName (git.go lines 300-318): squash the
non-alphanumeric runs, then, when trimming is on, strip one leading
feature- or hotfix- token. -/
def cleanseBranchName (name : String) (trim : Bool) : String :=
  let branchName := squashRuns name.toList
  if trim = false then ⟨branchName⟩
  else ⟨trimBranchTokens branchName⟩

/-- ReferenceName.IsBranch: the name carries the refs/heads/ lead-in. -/
def isBranchRef : List Char → Bool
  | 'r' :: 'e' :: 'f' :: 's' :: '/' :: 'h' :: 'e' :: 'a' :: 'd' :: 's' :: '/' :: _ => true
  | _ => false

/-- ReferenceName.Short on a branch reference: the name without the
refs/heads/ lead-in. -/
def shortBranchName : List Char → List Char
  | 'r' :: 'e' :: 'f' :: 's' :: '/' :: 'h' :: 'e' :: 'a' :: 'd' :: 's' :: '/' :: rest => rest
  | l => l

/-- The reference scan at the end of getCurrentBranch (git.go lines
275-297): the short name of the last enumerated branch reference whose
hash equals the head hash; an empty result is the cannot-determine
error. -/
def scanBranches (refs : List GitReference) (headHash : String) (trim : Bool) :
    Except String String :=
  let branchName := refs.foldl
    (fun acc ref =>
      if isBranchRef ref.name.toList && ref.hash == headHash
      then shortBranchName ref.name.toList else acc) ([] : List Char)
  if branchName = [] then Except.error "Cannot determine branch"
  else Except.ok (cleanseBranchName ⟨branchName⟩ trim)

/-- Model of getCurrentBranch (git.go lines 243-298): unless env vars
are ignored, a present TRAVIS_PULL_REQUEST_BRANCH, then TRAVIS_BRANCH,
then CI_COMMIT_REF_NAME short-circuits with its cleansed value (the
code tests presence only, not non-emptiness); otherwise the reference
scan decides. -/
def getCurrentBranch (lookupEnv : String → Option String) (refs : List GitReference)
    (headHash : String) (ignoreEnvVars trim : Bool) : Except String String :=
  if ignoreEnvVars = false then
    match lookupEnv "TRAVIS_PULL_REQUEST_BRANCH" with
    | some name => Except.ok (cleanseBranchName name trim)
    | none =>
      match lookupEnv "TRAVIS_BRANCH" with
      | some name => Except.ok (cleanseBranchName name trim)
      | none =>
        match lookupEnv "CI_COMMIT_REF_NAME" with
        | some name => Except.ok (cleanseBranchName name trim)
        | none => scanBranches refs headHash trim
  else scanBranches refs headHash trim

/-- Model of the label command (root.go runPrerelease together with
git.go GetPrereleaseLabel): resolve the current branch with env vars
enabled, then print the label, replaced by the empty string when it
equals the literal master. -/
def runPrerelease (lookupEnv : String → Option String) (refs : List GitReference)
    (headHash : String) (trim : Bool) : Except String String :=
  match getCurrentBranch lookupEnv refs headHash false trim with
  | Except.error e => Except.error e
  | Except.ok label => Except.ok (if label = "master" then "" else label)

/-! ## Tag-map construction (git.go GetCurrentVersion, lines 49-86) -/

/-- One Go map assignment tagMap[k] = v. -/
def mapInsert (m : String → Option String) (k v : String) : String → Option String :=
  fun h => if h = k then some v else m h

/-- strings.Replace(name, "refs/tags/", "", -1): remove every
occurrence of the tag-ref lead-in, scanning left to right. -/
def stripTagsChars : List Char → List Char
  | 'r' :: 'e' :: 'f' :: 's' :: '/' :: 't' :: 'a' :: 'g' :: 's' :: '/' :: rest =>
    stripTagsChars rest
  | c :: rest => c :: stripTagsChars rest
  | [] => []

/-- The tag name recorded for a lightweight tag reference. -/
def stripRefsTags (name : String) : String :=
  ⟨stripTagsChars name.toList⟩

/-- The known-tag map GetCurrentVersion builds: first the lightweight
tag references (hash of the reference, stripped name), then the
annotated tag objects (hash of the tagged commit, tag name), later
assignments overwriting earlier ones. -/
def buildTagMap (ltags : List GitReference) (atags : List (String × String)) :
    String → Option String :=
  let lightMap := ltags.foldl
    (fun m ref => mapInsert m ref.hash (stripRefsTags ref.name)) (fun _ => none)
  atags.foldl (fun m t => mapInsert m t.1 t.2) lightMap

/-- The last value bound to a key by a list of assignments (the head of
the list is the earliest assignment). -/
def lastBinding : List (String × String) → String → Option String
  | [], _ => none
  | t :: ts, k =>
    match lastBinding ts k with
    | some v => some v
    | none => if k = t.1 then some t.2 else none

/-! ## General facts about the embedded operations -/

/-- Byte-wise comparison of a string with itself is never strict. -/
theorem strLtChars_self (l : List Char) : strLtChars l l = false := by
  induction l with
  | nil => rfl
  | cons a as ih => simp [strLtChars, ih]

/-- A prerelease identifier slice compares equal to itself. -/
theorem rpc_self (l : List String) : recursivePreReleaseCompare l l = 0 := by
  induction l with
  | nil => rfl
  | cons a as ih =>
    unfold recursivePreReleaseCompare
    cases h : atoi a with
    | none => simp [goStrLt, strLtChars_self, ih]
    | some ai => simp [ih]

/-- The numeric tuple of a version compares equal to itself. -/
theorem numericCompare_self (v : SemVer) : numericCompare v v = 0 := by
  simp [numericCompare]

/-- Version.LessThan is irreflexive: a version is never below itself.
This is what makes the aliased forbid-check of getVersion vacuous. -/
theorem lessThan_self (v : SemVer) : lessThan v v = false := by
  unfold lessThan compareVer preReleaseCompare
  by_cases h : v.preRelease = ""
  · simp [numericCompare_self, h]
  · simp [numericCompare_self, h, rpc_self]

/-- A Bool that is not true is false. -/
theorem isSolid_false_of_not_true (g : GitVersion) (h : ¬g.IsSolid = true) :
    g.IsSolid = false := by
  revert h; cases g.IsSolid <;> simp

/-- An empty traversal sequence is the cannot-determine-version error. -/
theorem getVersion_nil (f : Bool) (m : SemVer) (b hs : String) :
    getVersion f m [] b hs = Except.error VersionError.cannotDetermineVersionInBranch := rfl

/-- When the oldest record is not solid, getVersion folds every record
over the default-branch version, labels the result and returns it; the
forbid-check compares the mutated shared object with itself, so no
error is possible. -/
theorem getVersion_concat_nonsolid (f : Bool) (m : SemVer) (init : List GitVersion)
    (g : GitVersion) (b hs : String) (hg : g.IsSolid = false) :
    getVersion f m (init ++ [g]) b hs =
      Except.ok { (init ++ [g]).foldr applyBump m with
        preRelease := b ++ "-" ++ toString init.length ++ "-" ++ hs.take 4 } := by
  unfold getVersion
  rw [List.getLast?_concat]
  cases init with
  | nil => simp [hg, lessThan_self]
  | cons a as => simp [hg, lessThan_self, List.cons_append]

/-- A single solid record resolves to its own version, unlabeled and
unchecked. -/
theorem getVersion_concat_solid_nil (f : Bool) (m : SemVer) (g : GitVersion)
    (b hs : String) (hg : g.IsSolid = true) :
    getVersion f m [g] b hs = Except.ok g.Name := by
  unfold getVersion
  simp [hg]

/-- When the oldest record is solid and other records remain, getVersion
folds the remaining records over the solid version, labels the result
and gates it on the full-semver forbid-check against the untouched
default-branch version. -/
theorem getVersion_concat_solid (f : Bool) (m : SemVer) (init : List GitVersion)
    (g : GitVersion) (b hs : String) (hg : g.IsSolid = true) (hinit : init ≠ []) :
    getVersion f m (init ++ [g]) b hs =
      (if f && lessThan { init.foldr applyBump g.Name with
            preRelease := b ++ "-" ++ toString init.length ++ "-" ++ hs.take 4 } m
       then Except.error (VersionError.branchBehindMaster
          { init.foldr applyBump g.Name with
            preRelease := b ++ "-" ++ toString init.length ++ "-" ++ hs.take 4 } m)
       else Except.ok { init.foldr applyBump g.Name with
            preRelease := b ++ "-" ++ toString init.length ++ "-" ++ hs.take 4 }) := by
  unfold getVersion
  rw [List.getLast?_concat]
  cases init with
  | nil => exact absurd rfl hinit
  | cons a as =>
    simp only [hg, List.dropLast_concat]
    simp [List.cons_append]

/-! ## The claims -/

/-- C1, counterexample.  A branch whose oldest record is a solid 1.0.0
tag followed by one no-op commit assembles to 1.0.0 with a prerelease
label; the default branch is also at 1.0.0, so the numeric tuples are
equal, yet with ForbidBehindDefaultBranch enabled assembly fails with
the behind-master error: the comparison is full semver order, and a
labeled version sorts below the unlabeled default-branch version. -/
theorem C1_counterexample :
    getVersion true ⟨1, 0, 0, "", ""⟩
      [⟨false, ⟨0, 0, 0, "", ""⟩, false, false, false, "c1"⟩,
       ⟨true, ⟨1, 0, 0, "", ""⟩, false, false, false, "c0"⟩] "b" "abcd1234"
      = Except.error (VersionError.branchBehindMaster ⟨1, 0, 0, "b-1-abcd", ""⟩ ⟨1, 0, 0, "", ""⟩) ∧
    numericCompare ⟨1, 0, 0, "b-1-abcd", ""⟩ ⟨1, 0, 0, "", ""⟩ = 0 := ⟨rfl, rfl⟩

/-- C1 (amended).  With ForbidBehindDefaultBranch the assembly fails
with the behind-master error exactly when the flag is on, the base came
from a solid oldest record, at least one record remains after the solid
one (so a prerelease label was attached; with no remaining records the
check is skipped), and the labeled assembled version is below the
default-branch version in the full semver order, prerelease included.
When the base is the default-branch version itself the check compares
the mutated shared object against itself and never fails. -/
theorem C1_forbid_check (f : Bool) (m : SemVer) (init : List GitVersion)
    (g : GitVersion) (b hs : String) :
    (∃ a mm, getVersion f m (init ++ [g]) b hs
        = Except.error (VersionError.branchBehindMaster a mm)) ↔
      (f = true ∧ g.IsSolid = true ∧ init ≠ [] ∧
        lessThan { init.foldr applyBump g.Name with
          preRelease := b ++ "-" ++ toString init.length ++ "-" ++ hs.take 4 } m = true) := by
  constructor
  · rintro ⟨a, mm, heq⟩
    by_cases hg : g.IsSolid = true
    · by_cases hinit : init = []
      · subst hinit
        simp only [List.nil_append] at heq
        rw [getVersion_concat_solid_nil f m g b hs hg] at heq
        simp at heq
      · rw [getVersion_concat_solid f m init g b hs hg hinit] at heq
        by_cases hc : (f && lessThan { init.foldr applyBump g.Name with
            preRelease := b ++ "-" ++ toString init.length ++ "-" ++ hs.take 4 } m) = true
        · obtain ⟨hf, hl⟩ := Bool.and_eq_true_iff.mp hc
          exact ⟨hf, hg, hinit, hl⟩
        · rw [if_neg hc] at heq
          simp at heq
    · rw [getVersion_concat_nonsolid f m init g b hs (isSolid_false_of_not_true g hg)] at heq
      simp at heq
  · rintro ⟨hf, hg, hinit, hl⟩
    subst hf
    rw [getVersion_concat_solid true m init g b hs hg hinit, if_pos (by simp [hl])]
    exact ⟨_, _, rfl⟩

/-- C1, witness: the amended characterisation instantiated at the
counterexample input. -/
theorem C1_forbid_check_witness :
    (∃ a mm, getVersion true ⟨1, 0, 0, "", ""⟩
        ([⟨false, ⟨0, 0, 0, "", ""⟩, false, false, false, "c1"⟩]
          ++ [⟨true, ⟨1, 0, 0, "", ""⟩, false, false, false, "c0"⟩]) "b" "abcd1234"
        = Except.error (VersionError.branchBehindMaster a mm)) ↔
      (true = true ∧ true = true ∧
        [(⟨false, ⟨0, 0, 0, "", ""⟩, false, false, false, "c1"⟩ : GitVersion)] ≠ [] ∧
        lessThan ⟨1, 0, 0, "b-1-abcd", ""⟩ ⟨1, 0, 0, "", ""⟩ = true) :=
  C1_forbid_check true ⟨1, 0, 0, "", ""⟩
    [⟨false, ⟨0, 0, 0, "", ""⟩, false, false, false, "c1"⟩]
    ⟨true, ⟨1, 0, 0, "", ""⟩, false, false, false, "c0"⟩ "b" "abcd1234"

/-- C2, counterexample.  A traversal sequence of one non-solid record
folds that one record (the aggregation runs over all records when the
oldest is not solid), yet the label says 0, the sequence length minus
one, not 1, the number of folded records. -/
theorem C2_counterexample :
    getVersion false ⟨1, 0, 0, "", ""⟩
      [⟨false, ⟨0, 0, 0, "", ""⟩, false, false, false, "c1"⟩] "b" "abcd1234"
      = Except.ok ⟨1, 0, 0, "b-0-abcd", ""⟩ ∧
    ([⟨false, ⟨0, 0, 0, "", ""⟩, false, false, false, "c1"⟩] : List GitVersion).length = 1 ∧
    ("b-0-abcd" : String) ≠ "b-1-abcd" := ⟨rfl, rfl, by decide⟩

/-- C2 (amended).  Whenever a prerelease label is attached (the oldest
record is not solid, or other records remain besides it), the label is
branch-count-shorthash where count is the sequence length minus one
(the number of folded records when the oldest record is solid, one less
than the number of folded records otherwise) and shorthash is the
4-character front of the current commit hash. -/
theorem C2_label (f : Bool) (m : SemVer) (init : List GitVersion) (g : GitVersion)
    (b hs : String) (h : g.IsSolid = false ∨ init ≠ []) :
    ∃ v, calculatedVersion (getVersion f m (init ++ [g]) b hs) = some v ∧
      v.preRelease = b ++ "-" ++ toString init.length ++ "-" ++ hs.take 4 := by
  rcases h with hg | hinit
  · exact ⟨_, by rw [getVersion_concat_nonsolid f m init g b hs hg]; rfl, rfl⟩
  · by_cases hg : g.IsSolid = true
    · rw [getVersion_concat_solid f m init g b hs hg hinit]
      by_cases hc : (f && lessThan { init.foldr applyBump g.Name with
          preRelease := b ++ "-" ++ toString init.length ++ "-" ++ hs.take 4 } m) = true
      · rw [if_pos hc]
        exact ⟨_, rfl, rfl⟩
      · rw [if_neg hc]
        exact ⟨_, rfl, rfl⟩
    · exact ⟨_, by rw [getVersion_concat_nonsolid f m init g b hs
        (isSolid_false_of_not_true g hg)]; rfl, rfl⟩

/-- C2, witness: the label of a one-record branch. -/
theorem C2_label_witness :
    ∃ v, calculatedVersion (getVersion false ⟨1, 0, 0, "", ""⟩
        ([] ++ [⟨false, ⟨0, 0, 0, "", ""⟩, false, false, false, "c1"⟩]) "b" "abcd1234")
        = some v ∧
      v.preRelease = "b" ++ "-" ++ toString (List.length ([] : List GitVersion))
        ++ "-" ++ ("abcd1234".take 4) :=
  C2_label false ⟨1, 0, 0, "", ""⟩ [] ⟨false, ⟨0, 0, 0, "", ""⟩, false, false, false, "c1"⟩
    "b" "abcd1234" (Or.inl rfl)

/-- C3 (confirmed).  When the oldest record is not solid the running
base version is the default-branch version object itself, every bump
mutates that shared object, and the forbid-check therefore compares the
assembled version with itself: assembly always succeeds, and the value
of the ForbidBehindDefaultBranch flag makes no difference. -/
theorem C3_aliasing (m : SemVer) (init : List GitVersion) (g : GitVersion)
    (b hs : String) (hg : g.IsSolid = false) :
    (∃ v, getVersion true m (init ++ [g]) b hs = Except.ok v) ∧
    getVersion true m (init ++ [g]) b hs = getVersion false m (init ++ [g]) b hs := by
  refine ⟨⟨_, getVersion_concat_nonsolid true m init g b hs hg⟩, ?_⟩
  rw [getVersion_concat_nonsolid true m init g b hs hg,
      getVersion_concat_nonsolid false m init g b hs hg]

/-- C3, witness: one non-solid record, flag enabled. -/
theorem C3_aliasing_witness :
    (∃ v, getVersion true ⟨1, 0, 0, "", ""⟩
        ([] ++ [⟨false, ⟨0, 0, 0, "", ""⟩, false, false, false, "c1"⟩]) "b" "abcd1234"
        = Except.ok v) ∧
    getVersion true ⟨1, 0, 0, "", ""⟩
        ([] ++ [⟨false, ⟨0, 0, 0, "", ""⟩, false, false, false, "c1"⟩]) "b" "abcd1234"
      = getVersion false ⟨1, 0, 0, "", ""⟩
        ([] ++ [⟨false, ⟨0, 0, 0, "", ""⟩, false, false, false, "c1"⟩]) "b" "abcd1234" :=
  C3_aliasing ⟨1, 0, 0, "", ""⟩ [] ⟨false, ⟨0, 0, 0, "", ""⟩, false, false, false, "c1"⟩
    "b" "abcd1234" rfl

/-- C4 (confirmed).  An empty traversal sequence is the
cannot-determine-version error; a solid oldest record supplies the base
version and is excluded from the fold (alone, it is returned as is);
a non-solid oldest record leaves the default-branch version as the base
and every record is folded. -/
theorem C4_base_selection :
    (∀ (f : Bool) (m : SemVer) (b hs : String),
      getVersion f m [] b hs = Except.error VersionError.cannotDetermineVersionInBranch) ∧
    (∀ (f : Bool) (m : SemVer) (g : GitVersion) (b hs : String), g.IsSolid = true →
      getVersion f m [g] b hs = Except.ok g.Name) ∧
    (∀ (f : Bool) (m : SemVer) (init : List GitVersion) (g : GitVersion) (b hs : String),
      g.IsSolid = true → init ≠ [] →
      calculatedVersion (getVersion f m (init ++ [g]) b hs) =
        some { init.foldr applyBump g.Name with
          preRelease := b ++ "-" ++ toString init.length ++ "-" ++ hs.take 4 }) ∧
    (∀ (f : Bool) (m : SemVer) (init : List GitVersion) (g : GitVersion) (b hs : String),
      g.IsSolid = false →
      calculatedVersion (getVersion f m (init ++ [g]) b hs) =
        some { (init ++ [g]).foldr applyBump m with
          preRelease := b ++ "-" ++ toString init.length ++ "-" ++ hs.take 4 }) := by
  refine ⟨fun f m b hs => rfl, fun f m g b hs hg => getVersion_concat_solid_nil f m g b hs hg,
    fun f m init g b hs hg hinit => ?_, fun f m init g b hs hg => ?_⟩
  · rw [getVersion_concat_solid f m init g b hs hg hinit]
    by_cases hc : (f && lessThan { init.foldr applyBump g.Name with
        preRelease := b ++ "-" ++ toString init.length ++ "-" ++ hs.take 4 } m) = true
    · rw [if_pos hc]; rfl
    · rw [if_neg hc]; rfl
  · rw [getVersion_concat_nonsolid f m init g b hs hg]; rfl

/-- C4, witness: a patch commit over a solid 1.0.0 tag. -/
theorem C4_base_selection_witness :
    calculatedVersion (getVersion false ⟨9, 9, 9, "", ""⟩
        ([⟨false, ⟨0, 0, 0, "", ""⟩, false, false, true, "c1"⟩]
          ++ [⟨true, ⟨1, 0, 0, "", ""⟩, false, false, false, "c0"⟩]) "b" "abcd1234") =
      some { List.foldr applyBump
          (GitVersion.Name ⟨true, ⟨1, 0, 0, "", ""⟩, false, false, false, "c0"⟩)
          [⟨false, ⟨0, 0, 0, "", ""⟩, false, false, true, "c1"⟩] with
        preRelease := "b" ++ "-" ++
          toString (List.length [(⟨false, ⟨0, 0, 0, "", ""⟩, false, false, true, "c1"⟩ : GitVersion)])
          ++ "-" ++ ("abcd1234".take 4) } :=
  C4_base_selection.2.2.1 false ⟨9, 9, 9, "", ""⟩
    [⟨false, ⟨0, 0, 0, "", ""⟩, false, false, true, "c1"⟩]
    ⟨true, ⟨1, 0, 0, "", ""⟩, false, false, false, "c0"⟩ "b" "abcd1234" rfl (by decide)

/-- C5 (confirmed).  The aggregation of the newest-first sequence is a
right fold, that is a left fold over the oldest-first reversal: the
oldest qualifying bump is applied first.  A record applies exactly the
bump operation its first set flag selects (MajorBump before MinorBump
before PatchBump, matching the Go switch) and a record with no flag set
leaves the running version unchanged; each bump operation increments
exactly its own component (per the engine's semver convention it also
resets the lower components and clears the prerelease). -/
theorem C5_fold_order :
    (∀ (records : List GitVersion) (base : SemVer),
      records.foldr applyBump base =
        records.reverse.foldl (fun v gg => applyBump gg v) base) ∧
    (∀ (f : Bool) (m : SemVer) (init : List GitVersion) (g : GitVersion) (b hs : String),
      g.IsSolid = false →
      calculatedVersion (getVersion f m (init ++ [g]) b hs) =
        some { (init ++ [g]).reverse.foldl (fun v gg => applyBump gg v) m with
          preRelease := b ++ "-" ++ toString init.length ++ "-" ++ hs.take 4 }) ∧
    (∀ (gg : GitVersion) (v : SemVer), gg.MajorBump = true → applyBump gg v = bumpMajor v) ∧
    (∀ (gg : GitVersion) (v : SemVer), gg.MajorBump = false → gg.MinorBump = true →
      applyBump gg v = bumpMinor v) ∧
    (∀ (gg : GitVersion) (v : SemVer), gg.MajorBump = false → gg.MinorBump = false →
      gg.PatchBump = true → applyBump gg v = bumpPatch v) ∧
    (∀ (gg : GitVersion) (v : SemVer), gg.MajorBump = false → gg.MinorBump = false →
      gg.PatchBump = false → applyBump gg v = v) ∧
    (∀ v : SemVer, (bumpMajor v).major = v.major + 1 ∧ (bumpMinor v).minor = v.minor + 1 ∧
      (bumpPatch v).patch = v.patch + 1) := by
  refine ⟨fun records base => by simp, fun f m init g b hs hg => ?_,
    fun gg v h1 => by simp [applyBump, h1], fun gg v h1 h2 => by simp [applyBump, h1, h2],
    fun gg v h1 h2 h3 => by simp [applyBump, h1, h2, h3],
    fun gg v h1 h2 h3 => by simp [applyBump, h1, h2, h3],
    fun v => ⟨rfl, rfl, rfl⟩⟩
  rw [getVersion_concat_nonsolid f m init g b hs hg]
  simp
  rfl

/-- C5, witness: a minor-bump record applies bumpMinor. -/
theorem C5_fold_order_witness :
    applyBump ⟨false, ⟨0, 0, 0, "", ""⟩, false, true, false, "c1"⟩ ⟨1, 4, 3, "pre", "md"⟩ =
      bumpMinor ⟨1, 4, 3, "pre", "md"⟩ :=
  C5_fold_order.2.2.2.1 ⟨false, ⟨0, 0, 0, "", ""⟩, false, true, false, "c1"⟩
    ⟨1, 4, 3, "pre", "md"⟩ rfl rfl

/-- C6, the failing input evaluated.  With two fetch refspecs where
the first matches the resolved origin HEAD but its mapped local name
does not resolve, the shared reference variable is nilled (git.go line
151) and the next iteration crashes on the nil dereference (git.go
line 146) — although the second refspec also matches and its mapped,
force-stripped local name resolves, so the fallback the claim and spec
describe would have succeeded with that reference. -/
theorem C6_refspec_nil_crash :
    getDefaultBranch
      ⟨fun n =>
        if n = "refs/remotes/origin/HEAD" then some ⟨"refs/remotes/origin/main", "h1"⟩
        else if n = "refs/heads/present" then some ⟨"refs/heads/present", "h2"⟩
        else none,
        some ["+refs/heads/missing:refs/remotes/origin/main",
              "+refs/heads/present:refs/remotes/origin/main"]⟩
      "refs/heads/main" = Except.error DefaultBranchFailure.nilReferenceCrash ∧
    refspecMatch (refspecReverse "+refs/heads/present:refs/remotes/origin/main")
      "refs/remotes/origin/main" = true ∧
    stripPlus (refspecDst (refspecReverse "+refs/heads/present:refs/remotes/origin/main")
      "refs/remotes/origin/main") = "refs/heads/present" ∧
    RepoEnv.reference
      ⟨fun n =>
        if n = "refs/remotes/origin/HEAD" then some ⟨"refs/remotes/origin/main", "h1"⟩
        else if n = "refs/heads/present" then some ⟨"refs/heads/present", "h2"⟩
        else none,
        some ["+refs/heads/missing:refs/remotes/origin/main",
              "+refs/heads/present:refs/remotes/origin/main"]⟩
      "refs/heads/present" = some ⟨"refs/heads/present", "h2"⟩ := ⟨rfl, rfl, rfl, rfl⟩

/-- A reference that is not a branch reference of the head hash never
fires the scan condition. -/
theorem branch_cond_false (q : GitReference) (hh : String)
    (h : isBranchRef q.name.toList = false ∨ q.hash ≠ hh) :
    (isBranchRef q.name.toList && q.hash == hh) = false := by
  rcases h with h | h
  · rw [h]; rfl
  · cases hbb : (q.hash == hh)
    · simp
    · simp at hbb
      exact absurd hbb h

/-- The reference scan leaves its accumulator unchanged over references
that do not match. -/
theorem scan_foldl_skip (refs : List GitReference) (hh : String) (acc : List Char)
    (h : ∀ ref ∈ refs, (isBranchRef ref.name.toList && ref.hash == hh) = false) :
    refs.foldl
      (fun acc ref =>
        if isBranchRef ref.name.toList && ref.hash == hh
        then shortBranchName ref.name.toList else acc) acc = acc := by
  induction refs generalizing acc with
  | nil => rfl
  | cons ref rest ih =>
    rw [List.foldl_cons, if_neg (by
      intro hc
      rw [h ref (List.mem_cons_self ref rest)] at hc
      exact Bool.noConfusion hc)]
    exact ih acc (fun q hq => h q (List.mem_cons_of_mem ref hq))

/-- C7, counterexample.  With TRAVIS_PULL_REQUEST_BRANCH present but
empty, resolution short-circuits and returns the empty label, although
the reference scan the claim prescribes for that case would have
resolved the branch main. -/
theorem C7_counterexample :
    getCurrentBranch (fun s => if s = "TRAVIS_PULL_REQUEST_BRANCH" then some "" else none)
        [⟨"refs/heads/main", "h1"⟩] "h1" false false = Except.ok "" ∧
    scanBranches [⟨"refs/heads/main", "h1"⟩] "h1" false = Except.ok "main" ∧
    ("" : String) ≠ "main" := ⟨rfl, rfl, by decide⟩

/-- C7 (amended).  With env vars enabled, resolution checks
TRAVIS_PULL_REQUEST_BRANCH, then TRAVIS_BRANCH, then
CI_COMMIT_REF_NAME, and the first variable that is present
short-circuits with its cleansed value, even when the value is the
empty string; only when none is present does the reference scan run,
returning the short name of the last branch reference whose hash equals
the head hash and failing with the cannot-determine error when no
branch reference matches. -/
theorem C7_branch_resolution :
    (∀ (lookupEnv : String → Option String) (refs : List GitReference) (hh : String)
        (trim : Bool) (v : String),
      lookupEnv "TRAVIS_PULL_REQUEST_BRANCH" = some v →
      getCurrentBranch lookupEnv refs hh false trim = Except.ok (cleanseBranchName v trim)) ∧
    (∀ (lookupEnv : String → Option String) (refs : List GitReference) (hh : String)
        (trim : Bool) (v : String),
      lookupEnv "TRAVIS_PULL_REQUEST_BRANCH" = none →
      lookupEnv "TRAVIS_BRANCH" = some v →
      getCurrentBranch lookupEnv refs hh false trim = Except.ok (cleanseBranchName v trim)) ∧
    (∀ (lookupEnv : String → Option String) (refs : List GitReference) (hh : String)
        (trim : Bool) (v : String),
      lookupEnv "TRAVIS_PULL_REQUEST_BRANCH" = none →
      lookupEnv "TRAVIS_BRANCH" = none →
      lookupEnv "CI_COMMIT_REF_NAME" = some v →
      getCurrentBranch lookupEnv refs hh false trim = Except.ok (cleanseBranchName v trim)) ∧
    (∀ (lookupEnv : String → Option String) (refs : List GitReference) (hh : String)
        (trim : Bool),
      lookupEnv "TRAVIS_PULL_REQUEST_BRANCH" = none →
      lookupEnv "TRAVIS_BRANCH" = none →
      lookupEnv "CI_COMMIT_REF_NAME" = none →
      getCurrentBranch lookupEnv refs hh false trim = scanBranches refs hh trim) ∧
    (∀ (refs : List GitReference) (hh : String) (trim : Bool),
      (∀ ref ∈ refs, isBranchRef ref.name.toList = false ∨ ref.hash ≠ hh) →
      scanBranches refs hh trim = Except.error "Cannot determine branch") ∧
    (∀ (pre post : List GitReference) (ref : GitReference) (hh : String) (trim : Bool),
      isBranchRef ref.name.toList = true → ref.hash = hh →
      (∀ q ∈ post, isBranchRef q.name.toList = false ∨ q.hash ≠ hh) →
      scanBranches (pre ++ ref :: post) hh trim =
        (if shortBranchName ref.name.toList = []
         then Except.error "Cannot determine branch"
         else Except.ok (cleanseBranchName ⟨shortBranchName ref.name.toList⟩ trim))) := by
  refine ⟨?_, ?_, ?_, ?_, ?_, ?_⟩
  · intro lookupEnv refs hh trim v h1
    unfold getCurrentBranch
    rw [if_pos rfl, h1]
  · intro lookupEnv refs hh trim v h1 h2
    unfold getCurrentBranch
    rw [if_pos rfl, h1, h2]
  · intro lookupEnv refs hh trim v h1 h2 h3
    unfold getCurrentBranch
    rw [if_pos rfl, h1, h2, h3]
  · intro lookupEnv refs hh trim h1 h2 h3
    unfold getCurrentBranch
    rw [if_pos rfl, h1, h2, h3]
  · intro refs hh trim h
    unfold scanBranches
    rw [scan_foldl_skip refs hh [] (fun ref hm => branch_cond_false ref hh (h ref hm))]
    rfl
  · intro pre post ref hh trim h1 h2 h3
    have hcond : (isBranchRef ref.name.toList && ref.hash == hh) = true := by
      rw [h1, h2]; simp
    have hfold : (pre ++ ref :: post).foldl
        (fun acc ref =>
          if isBranchRef ref.name.toList && ref.hash == hh
          then shortBranchName ref.name.toList else acc) [] =
        shortBranchName ref.name.toList := by
      rw [List.foldl_append, List.foldl_cons, if_pos hcond,
        scan_foldl_skip post hh (shortBranchName ref.name.toList)
          (fun q hq => branch_cond_false q hh (h3 q hq))]
    unfold scanBranches
    rw [hfold]

/-- C7, witness: a present pull-request branch variable wins. -/
theorem C7_branch_resolution_witness :
    getCurrentBranch (fun s => if s = "TRAVIS_PULL_REQUEST_BRANCH" then some "pull/1" else none)
        [] "h1" false false = Except.ok (cleanseBranchName "pull/1" false) :=
  C7_branch_resolution.1 (fun s => if s = "TRAVIS_PULL_REQUEST_BRANCH" then some "pull/1" else none)
    [] "h1" false "pull/1" rfl

/-- One step of the run-squashing scan on a constructor-shaped list. -/
theorem squashAux_cons (inRun : Bool) (c : Char) (rest : List Char) :
    squashAux inRun (c :: rest) =
      (if isAlnum c then c :: squashAux false rest
       else if inRun then squashAux true rest else '-' :: squashAux true rest) := rfl

/-- A Bool whose negation is true is false. -/
theorem bool_false_of_not_true (b : Bool) (h : (!b) = true) : b = false := by
  revert h; cases b <;> simp

/-- The squashing scan copies a leading alphanumeric block verbatim. -/
theorem squashAux_alnum (a l : List Char) (ha : a.all isAlnum = true) :
    squashAux false (a ++ l) = a ++ squashAux false l := by
  induction a with
  | nil => rfl
  | cons c cs ih =>
    rw [List.all_cons, Bool.and_eq_true] at ha
    rw [List.cons_append, squashAux_cons, if_pos ha.1, ih ha.2]
    rfl

/-- Inside a run, the squashing scan drops the rest of the run and
resumes outside it. -/
theorem squashAux_inRun (m bl : List Char) (hm : m.all (fun c => !isAlnum c) = true)
    (hb : bl = [] ∨ ∃ hc tl, bl = hc :: tl ∧ isAlnum hc = true) :
    squashAux true (m ++ bl) = squashAux false bl := by
  induction m with
  | nil =>
    rw [List.nil_append]
    rcases hb with hb | ⟨hc, tl, hb, hca⟩
    · subst hb; rfl
    · subst hb
      rw [squashAux_cons, squashAux_cons, if_pos hca, if_pos hca]
  | cons c cs ih =>
    rw [List.all_cons, Bool.and_eq_true] at hm
    have hcf : isAlnum c = false := bool_false_of_not_true _ hm.1
    rw [List.cons_append, squashAux_cons,
      if_neg (by rw [hcf]; exact Bool.noConfusion), if_pos rfl]
    exact ih hm.2

/-- C8 (confirmed).  Sanitization replaces every maximal run of
characters outside the alphanumeric class by a single dash (a run
between an alphanumeric block and an alphanumeric or empty remainder
becomes one dash; an all-alphanumeric string is unchanged); the two
concrete conjuncts are the spec's examples, and with trimming enabled
one leading feature- or hotfix- token is stripped after squashing. -/
theorem C8_sanitize :
    (∀ (a m bl : List Char), a.all isAlnum = true → m.all (fun c => !isAlnum c) = true →
      m ≠ [] → (bl = [] ∨ ∃ hc tl, bl = hc :: tl ∧ isAlnum hc = true) →
      squashRuns (a ++ m ++ bl) = a ++ '-' :: squashRuns bl) ∧
    (∀ a : List Char, a.all isAlnum = true → squashRuns a = a) ∧
    cleanseBranchName "feature/ABC-123" false = "feature-ABC-123" ∧
    cleanseBranchName "feature/ABC-123" true = "ABC-123" ∧
    (∀ name : String, cleanseBranchName name false = ⟨squashRuns name.toList⟩) ∧
    (∀ name : String,
      cleanseBranchName name true = ⟨trimBranchTokens (squashRuns name.toList)⟩) := by
  refine ⟨?_, ?_, rfl, rfl, fun name => rfl, fun name => rfl⟩
  · intro a m bl ha hm hmne hb
    unfold squashRuns
    rw [List.append_assoc, squashAux_alnum a (m ++ bl) ha]
    cases m with
    | nil => exact absurd rfl hmne
    | cons c cs =>
      rw [List.all_cons, Bool.and_eq_true] at hm
      have hcf : isAlnum c = false := bool_false_of_not_true _ hm.1
      rw [List.cons_append, squashAux_cons,
        if_neg (by rw [hcf]; exact Bool.noConfusion), if_neg (by exact Bool.noConfusion),
        squashAux_inRun cs bl hm.2 hb]
  · intro a ha
    have h := squashAux_alnum a [] ha
    rw [List.append_nil] at h
    rw [show squashAux false ([] : List Char) = [] from rfl, List.append_nil] at h
    exact h

/-- C8, witness: the run lemma at a one-character run. -/
theorem C8_sanitize_witness :
    squashRuns (['A'] ++ ['/'] ++ ['B']) = ['A'] ++ '-' :: squashRuns ['B'] :=
  C8_sanitize.1 ['A'] ['/'] ['B'] (by decide) (by decide) (by decide)
    (Or.inr ⟨'B', [], rfl, by decide⟩)

/-- A left fold of map assignments reads back as the last binding,
falling through to the initial map. -/
theorem foldl_mapInsert (l : List (String × String)) (m0 : String → Option String)
    (k : String) :
    (l.foldl (fun m t => mapInsert m t.1 t.2) m0) k =
      (match lastBinding l k with
       | some v => some v
       | none => m0 k) := by
  induction l generalizing m0 with
  | nil => rfl
  | cons t ts ih =>
    rw [List.foldl_cons, ih (mapInsert m0 t.1 t.2)]
    cases hl : lastBinding ts k with
    | some v => simp [lastBinding, hl]
    | none =>
      simp only [lastBinding, hl, mapInsert]
      by_cases hk : k = t.1
      · rw [if_pos hk, if_pos hk]
      · rw [if_neg hk, if_neg hk]

/-- The lightweight-tag fold is the pair fold over the stripped
(hash, name) pairs. -/
theorem foldl_mapInsert_refs (ltags : List GitReference) (m0 : String → Option String)
    (h : String) :
    (ltags.foldl (fun m ref => mapInsert m ref.hash (stripRefsTags ref.name)) m0) h =
      (match lastBinding (ltags.map (fun ref => (ref.hash, stripRefsTags ref.name))) h with
       | some v => some v
       | none => m0 h) := by
  have e : ltags.foldl (fun m ref => mapInsert m ref.hash (stripRefsTags ref.name)) m0 =
      (ltags.map (fun ref => (ref.hash, stripRefsTags ref.name))).foldl
        (fun m t => mapInsert m t.1 t.2) m0 := by
    rw [List.foldl_map]
  rw [e, foldl_mapInsert]

/-- C9 (confirmed).  The known-tag map reads back, per hash, the last
annotated-tag binding when one exists and only otherwise the last
lightweight binding: annotated names take precedence on hash collision
because the annotated loop runs after the lightweight loop.  In
particular any hash bound by an annotated tag maps to that annotated
name whatever the lightweight tags say. -/
theorem C9_annotated_precedence :
    (∀ (ltags : List GitReference) (atags : List (String × String)) (h : String),
      buildTagMap ltags atags h =
        (match lastBinding atags h with
         | some v => some v
         | none =>
            lastBinding (ltags.map (fun ref => (ref.hash, stripRefsTags ref.name))) h)) ∧
    (∀ (ltags : List GitReference) (atags : List (String × String)) (h v : String),
      lastBinding atags h = some v → buildTagMap ltags atags h = some v) := by
  have key : ∀ (ltags : List GitReference) (atags : List (String × String)) (h : String),
      buildTagMap ltags atags h =
        (match lastBinding atags h with
         | some v => some v
         | none =>
            lastBinding (ltags.map (fun ref => (ref.hash, stripRefsTags ref.name))) h) := by
    intro ltags atags h
    unfold buildTagMap
    rw [foldl_mapInsert atags _ h]
    cases hl : lastBinding atags h with
    | some v => rfl
    | none =>
      rw [foldl_mapInsert_refs ltags (fun _ => none) h]
      cases lastBinding (ltags.map (fun ref => (ref.hash, stripRefsTags ref.name))) h with
      | some v => rfl
      | none => rfl
  refine ⟨key, fun ltags atags h v hv => ?_⟩
  rw [key ltags atags h, hv]

/-- C9, witness: a lightweight v1.0.0 and an annotated v2.0.0 on the
same hash read back as the annotated name. -/
theorem C9_annotated_precedence_witness :
    buildTagMap [⟨"refs/tags/v1.0.0", "h0"⟩] [("h0", "v2.0.0")] "h0" = some "v2.0.0" :=
  C9_annotated_precedence.2 [⟨"refs/tags/v1.0.0", "h0"⟩] [("h0", "v2.0.0")] "h0" "v2.0.0" rfl

/-- C10 (confirmed).  The label command prints exactly the resolved
current-branch label, except that a label equal to the literal master
prints as the empty string; a failed resolution propagates its error. -/
theorem C10_label_command :
    (∀ (lookupEnv : String → Option String) (refs : List GitReference) (hh : String)
        (trim : Bool) (label : String),
      getCurrentBranch lookupEnv refs hh false trim = Except.ok label →
      runPrerelease lookupEnv refs hh trim =
        Except.ok (if label = "master" then "" else label)) ∧
    (∀ (lookupEnv : String → Option String) (refs : List GitReference) (hh : String)
        (trim : Bool) (e : String),
      getCurrentBranch lookupEnv refs hh false trim = Except.error e →
      runPrerelease lookupEnv refs hh trim = Except.error e) := by
  constructor
  · intro lookupEnv refs hh trim label h
    unfold runPrerelease
    rw [h]
  · intro lookupEnv refs hh trim e h
    unfold runPrerelease
    rw [h]

/-- C10, witness: a branch label equal to master prints empty. -/
theorem C10_label_command_witness :
    runPrerelease (fun s => if s = "TRAVIS_BRANCH" then some "master" else none) [] "h0" false =
      Except.ok (if ("master" : String) = "master" then "" else "master") :=
  C10_label_command.1 (fun s => if s = "TRAVIS_BRANCH" then some "master" else none)
    [] "h0" false "master" rfl

end Gogitver
